import Mathlib

/-!
# qail: tmux session provisioning (`internal/tmux/tmux.go`)

A shallow embedding of the `tmux` package of qail.  Go strings are Lean
`String`s, processed through their character lists.  The Go standard library
functions the package calls (`filepath.Base`, `filepath.Clean`,
`filepath.Join`, `strings.HasPrefix`, `strings.TrimSpace`, `strings.Split`)
are transcribed for a Unix target, where the path separator is `/` and a path
has no volume name.  External effects (`os.Chdir`, `os.ReadDir`,
`exec.Command(...).Run()`) are answered by an explicit environment, and every
effect performed is recorded in a log.
-/

namespace Qail

/-! ## Go standard library: `path/filepath` on Unix -/

/-- Unix `os.IsPathSeparator`: the only separator is `/`. -/
def isPathSeparator (c : Char) : Bool := c == '/'

/-- First loop of `filepath.Base`:
`for len(path) > 0 && os.IsPathSeparator(path[len(path)-1]) { path = path[0 : len(path)-1] }`. -/
def stripTrailingSeparators (path : List Char) : List Char :=
  (path.reverse.dropWhile isPathSeparator).reverse

/-- Second loop of `filepath.Base`: `i` runs down from the end while
`path[i]` is not a separator, then `path = path[i+1:]` (all of `path` when no
separator is found). -/
def lastElement (path : List Char) : List Char :=
  (path.reverse.takeWhile (fun c => !isPathSeparator c)).reverse

/-- Character-level body of `filepath.Base`. -/
def baseChars (path : List Char) : List Char :=
  if path = [] then ['.']
  else
    let path := lastElement (stripTrailingSeparators path)
    if path = [] then ['/'] else path

/-- Go `filepath.Base`. -/
def Base (path : String) : String := String.mk (baseChars path.data)

/-- The `..` case of `filepath.Clean` when the output can backtrack:
`out.w--` followed by
`for out.w > dotdot && !os.IsPathSeparator(out.index(out.w)) { out.w-- }`.
The buffer is held reversed (its head is the last byte written); `c` is the
byte at index `out.w`, that is the byte removed last. -/
def backLoop (dotdot : Nat) : Char → List Char → List Char
  | _, [] => []
  | c, x :: r =>
    if dotdot < (x :: r).length && !isPathSeparator c then backLoop dotdot x r
    else x :: r

/-- Backtracking of the output buffer `out` (in writing order). -/
def backtrack (dotdot : Nat) (out : List Char) : List Char :=
  match out.reverse with
  | [] => []
  | c :: r => (backLoop dotdot c r).reverse

/-- Main loop of `filepath.Clean`: `path` is the unread input `path[r:]`,
`out` the bytes written so far (`out.w = out.length`).  Every iteration reads
at least one byte, so `fuel = len(path)` iterations are enough. -/
def cleanLoop (rooted : Bool) : Nat → List Char → List Char → Nat → List Char
  | 0, _, out, _ => out
  | _ + 1, [], out, _ => out
  | fuel + 1, c :: rest, out, dotdot =>
    if isPathSeparator c then
      -- empty path element
      cleanLoop rooted fuel rest out dotdot
    else if c == '.' && (rest.isEmpty || (rest.head?.map isPathSeparator == some true)) then
      -- . element
      cleanLoop rooted fuel rest out dotdot
    else if c == '.' && rest.head? == some '.' &&
        (rest.tail.isEmpty || (rest.tail.head?.map isPathSeparator == some true)) then
      -- .. element: remove to last separator
      if dotdot < out.length then
        cleanLoop rooted fuel rest.tail (backtrack dotdot out) dotdot
      else if !rooted then
        let out1 := if 0 < out.length then out ++ ['/'] else out
        let out2 := out1 ++ ['.', '.']
        cleanLoop rooted fuel rest.tail out2 out2.length
      else
        cleanLoop rooted fuel rest.tail out dotdot
    else
      -- real path element: add slash if needed, then copy the element
      let out1 :=
        if (rooted && out.length != 1) || (!rooted && out.length != 0) then out ++ ['/']
        else out
      let elem := (c :: rest).takeWhile (fun x => !isPathSeparator x)
      let rest1 := (c :: rest).dropWhile (fun x => !isPathSeparator x)
      cleanLoop rooted fuel rest1 (out1 ++ elem) dotdot

/-- Character-level body of `filepath.Clean` (Unix: no volume name). -/
def cleanChars (path : List Char) : List Char :=
  match path with
  | [] => ['.']
  | c :: rest =>
    let rooted := isPathSeparator c
    let out :=
      if rooted then cleanLoop rooted path.length rest ['/'] 1
      else cleanLoop rooted path.length path [] 0
    -- Turn empty string into "."
    if out = [] then ['.'] else out

/-- Go `filepath.Clean`. -/
def Clean (path : String) : String := String.mk (cleanChars path.data)

/-- Go `strings.Join(elems, sep)`. -/
def stringsJoin : List String → String → String
  | [], _ => ""
  | [e], _ => e
  | e :: es, sep => e ++ sep ++ stringsJoin es sep

/-- Go `filepath.Join` on Unix: the elements from the first non-empty one on
are joined with `/` and cleaned; the result is empty when all are empty. -/
def Join : List String → String
  | [] => ""
  | e :: es => if e ≠ "" then Clean (stringsJoin (e :: es) "/") else Join es

/-- A path element that `filepath.Clean` copies unchanged: non-empty, without
separator, and neither `.` nor `..`. -/
def plainName (s : List Char) : Bool :=
  !s.isEmpty && s.all (fun c => !isPathSeparator c) && s != ['.'] && s != ['.', '.']

/-- The elements joined by single separators. -/
def joinSegs : List (List Char) → List Char
  | [] => []
  | [s] => s
  | s :: t :: ss => s ++ '/' :: joinSegs (t :: ss)

/-- Go `strings.HasPrefix`. -/
def HasPrefix (s pre : String) : Bool := pre.data.isPrefixOf s.data

/-! ## `SessionName` -/

/-- Go `SessionName`: `filepath.Base(path)`. -/
def SessionName (path : String) : String := Base path

/-! ## The environment of `Launch` -/

/-- An `os.DirEntry` as far as `Launch` looks at it: `Name()` and `IsDir()`. -/
structure DirEntry where
  name : String
  isDir : Bool
  deriving DecidableEq

/-- An external effect performed by `Launch`. -/
inductive Step where
  /-- The call `os.Chdir(path)`. -/
  | chdir (path : String)
  /-- The call `os.ReadDir(path)`. -/
  | readDir (path : String)
  /-- The call `exec.Command("tmux", args...).Run()`. -/
  | tmux (args : List String)
  deriving DecidableEq

/-- A performed step with its outcome: `none` for success, `some msg` for a
failure whose `Error()` text is `msg`. -/
structure Event where
  step : Step
  err : Option String
  deriving DecidableEq

/-- Answers of the outside world.  `run hist args` is the outcome of
`exec.Command("tmux", args...).Run()` when the tmux calls in `hist` were
issued before it. -/
structure Env where
  chdir : String → Option String
  readDir : String → Except String (List DirEntry)
  run : List (List String) → List String → Option String

/-- The tmux argument lists of a log, in the order issued. -/
def calls : List Event → List (List String)
  | [] => []
  | ⟨Step.tmux args, _⟩ :: es => args :: calls es
  | _ :: es => calls es

/-- Result of `Launch`: the effects performed and the returned `error`
(`none` is `nil`, `some msg` an error whose text is `msg`). -/
structure Outcome where
  log : List Event
  err : Option String
  deriving DecidableEq

/-! ## `Launch` -/

/-- Arguments of the `new-session` call. -/
def newSessionArgs (sessionName folderPath : String) : List String :=
  ["new-session", "-d", "-s", sessionName, "-c", folderPath, "-n", "root"]

/-- Arguments of the `new-window` call. -/
def newWindowArgs (sessionName : String) : List String :=
  ["new-window", "-t", sessionName, "-n", "SubFolders"]

/-- Arguments of the `send-keys` call, with
`fmt.Sprintf("%s:1.0", sessionName)` and `fmt.Sprintf("cd %s", subfolderPath)`. -/
def sendKeysArgs (sessionName subfolderPath : String) : List String :=
  ["send-keys", "-t", sessionName ++ ":1.0", "cd " ++ subfolderPath, "C-m"]

/-- Arguments of the `split-window` call, with `fmt.Sprintf("%s:1", sessionName)`. -/
def splitWindowArgs (sessionName subfolderPath : String) : List String :=
  ["split-window", "-t", sessionName ++ ":1", "-c", subfolderPath]

/-- Arguments of the `select-layout` call. -/
def selectLayoutArgs (sessionName : String) : List String :=
  ["select-layout", "-t", sessionName ++ ":1", "tiled"]

/-- The command built for the directory at index `i` of the listing:
`send-keys` into the first pane when `i == 0`, `split-window` otherwise. -/
def paneArgs (i : Nat) (sessionName subfolderPath : String) : List String :=
  if i == 0 then
    -- Use the first pane for the first subfolder
    sendKeysArgs sessionName subfolderPath
  else
    -- Split the pane and navigate to the subfolder
    splitWindowArgs sessionName subfolderPath

/-- The loop `for i, subFolder := range subFolders` of `Launch`, from index
`i` on.  `hist` holds the tmux calls issued so far; the result carries the
events of the loop and the error it returned with, if any. -/
def paneLoop (env : Env) (folderPath sessionName : String) :
    Nat → List DirEntry → List (List String) → Outcome
  | _, [], _ => ⟨[], none⟩
  | i, subFolder :: rest, hist =>
    if subFolder.isDir && HasPrefix subFolder.name "." then
      paneLoop env folderPath sessionName (i + 1) rest hist
    else if subFolder.isDir then
      let subfolderPath := Join [folderPath, subFolder.name]
      let cmd := paneArgs i sessionName subfolderPath
      match env.run hist cmd with
      | some err => ⟨[⟨Step.tmux cmd, some err⟩], some ("failed to split window: " ++ err)⟩
      | none =>
        let r := paneLoop env folderPath sessionName (i + 1) rest (hist ++ [cmd])
        ⟨⟨Step.tmux cmd, none⟩ :: r.log, r.err⟩
    else
      paneLoop env folderPath sessionName (i + 1) rest hist

/-- Go `Launch`. -/
def Launch (env : Env) (folderPath : String) : Outcome :=
  match env.chdir folderPath with
  | some err => ⟨[⟨Step.chdir folderPath, some err⟩], some ("failed to change directory: " ++ err)⟩
  | none =>
    let log1 : List Event := [⟨Step.chdir folderPath, none⟩]
    let sessionName := SessionName folderPath
    let cmd := newSessionArgs sessionName folderPath
    match env.run [] cmd with
    | some err =>
      ⟨log1 ++ [⟨Step.tmux cmd, some err⟩], some ("failed to create tmux session: " ++ err)⟩
    | none =>
      let log2 := log1 ++ [⟨Step.tmux cmd, none⟩]
      match env.readDir folderPath with
      | Except.error err => ⟨log2 ++ [⟨Step.readDir folderPath, some err⟩], some err⟩
      | Except.ok subFolders =>
        let log3 := log2 ++ [⟨Step.readDir folderPath, none⟩]
        if subFolders.length = 0 then ⟨log3, none⟩
        else
          let cmd2 := newWindowArgs sessionName
          match env.run [cmd] cmd2 with
          | some err =>
            ⟨log3 ++ [⟨Step.tmux cmd2, some err⟩], some ("failed to create new window: " ++ err)⟩
          | none =>
            let log4 := log3 ++ [⟨Step.tmux cmd2, none⟩]
            let r := paneLoop env folderPath sessionName 0 subFolders [cmd, cmd2]
            match r.err with
            | some err => ⟨log4 ++ r.log, some err⟩
            | none =>
              let log5 := log4 ++ r.log
              let cmd3 := selectLayoutArgs sessionName
              match env.run (calls log5) cmd3 with
              | some err =>
                ⟨log5 ++ [⟨Step.tmux cmd3, some err⟩], some ("failed to select layout: " ++ err)⟩
              | none => ⟨log5 ++ [⟨Step.tmux cmd3, none⟩], none⟩

/-- The environment in which every step succeeds and the directory read
returns `listing`. -/
def allOk (listing : List DirEntry) : Env where
  chdir := fun _ => none
  readDir := fun _ => Except.ok listing
  run := fun _ _ => none

/-- An entry for which `Launch` issues a pane call: a directory whose name
does not start with `.`. -/
def visibleDir (e : DirEntry) : Bool := e.isDir && !HasPrefix e.name "."

/-! ## `SessionExists` -/

/-- A non-nil error of `cmd.Run()`: an `*exec.ExitError` with its exit code,
or any other error (the binary is missing, the process cannot start, ...).
`text` is the `Error()` text. -/
inductive RunError where
  | exit (code : Int) (text : String)
  | other (text : String)
  deriving DecidableEq

/-- The `Error()` text of a run error. -/
def RunError.text : RunError → String
  | RunError.exit _ t => t
  | RunError.other t => t

/-- Arguments of the `has-session` probe. -/
def hasSessionArgs (sessionName : String) : List String :=
  ["has-session", "-t", sessionName]

/-- Go `SessionExists`.  `run` answers `exec.Command("tmux", args...).Run()`;
the result is the returned boolean and what was printed to standard output. -/
def SessionExists (run : List String → Option RunError) (sessionName : String) :
    Bool × List String :=
  match run (hasSessionArgs sessionName) with
  | some err =>
    match err with
    | RunError.exit code text =>
      -- tmux returns exit code 1 if the session does not exist
      if code = 1 then (false, [])
      else (true, ["Error checking tmux session: " ++ text ++ "\n"])
    | RunError.other text => (true, ["Error checking tmux session: " ++ text ++ "\n"])
  | none => (true, [])

/-! ## `ListSessions` -/

/-- Go `unicode.IsSpace`: the Latin-1 spaces `\t \n \v \f \r`, space, U+0085,
U+00A0, and the other code points of the `White_Space` table. -/
def IsSpace (r : Char) : Bool :=
  let n := r.toNat
  if n ≤ 0xFF then
    n == 0x09 || n == 0x0A || n == 0x0B || n == 0x0C || n == 0x0D || n == 0x20 ||
      n == 0x85 || n == 0xA0
  else
    n == 0x1680 || (0x2000 ≤ n && n ≤ 0x200A) || n == 0x2028 || n == 0x2029 ||
      n == 0x202F || n == 0x205F || n == 0x3000

/-- Go `strings.TrimLeftFunc(s, unicode.IsSpace)` on characters. -/
def trimLeft (s : List Char) : List Char := s.dropWhile IsSpace

/-- Go `strings.TrimRightFunc(s, unicode.IsSpace)` on characters. -/
def trimRight (s : List Char) : List Char := (s.reverse.dropWhile IsSpace).reverse

/-- Go `strings.TrimSpace` on a valid UTF-8 string: leading and trailing
white space removed. -/
def TrimSpace (s : String) : String := String.mk (trimRight (trimLeft s.data))

/-- Splitting a character list at every occurrence of `sep`. -/
def splitChars (sep : Char) : List Char → List (List Char)
  | [] => [[]]
  | c :: cs =>
    if c = sep then [] :: splitChars sep cs
    else
      match splitChars sep cs with
      | [] => [[c]]
      | h :: t => (c :: h) :: t

/-- Go `strings.Split(s, sep)` for a separator `sep` of one byte. -/
def Split (s : String) (sep : Char) : List String :=
  (splitChars sep s.data).map String.mk

/-- What `cmd.Run()` leaves behind when `Stdout` and `Stderr` are buffers. -/
structure ProcResult where
  err : Option String
  stdout : String
  stderr : String

/-- Arguments of the `list-sessions` call. -/
def listSessionsArgs : List String := ["list-sessions", "-F", "#S"]

deriving instance DecidableEq for Except

/-- Go `ListSessions`: `Except.error msg` is `(nil, err)`, `Except.ok l` is
`(l, nil)`. -/
def ListSessions (run : List String → ProcResult) : Except String (List String) :=
  let r := run listSessionsArgs
  match r.err with
  | some err =>
    Except.error ("error running tmux command: " ++ err ++ ", stderr: " ++ r.stderr)
  | none => Except.ok (Split (TrimSpace r.stdout) '\n')

/-! ## Concrete environments -/

/-- Every step succeeds except `select-layout`, which exits with status 1; the
directory holds the one subdirectory `x`. -/
def layoutFails : Env where
  chdir := fun _ => none
  readDir := fun _ => Except.ok [⟨"x", true⟩]
  run := fun _ args => if args.head? = some "select-layout" then some "exit status 1" else none

/-- The session is created, then reading the directory fails. -/
def readDirFails : Env where
  chdir := fun _ => none
  readDir := fun path => Except.error ("open " ++ path ++ ": permission denied")
  run := fun _ _ => none

/-- Shape of a log with respect to the returned error: either nothing failed,
or the log is a run of successful steps closed by the one failing step. -/
def LogShape (r : Outcome) : Prop :=
  (r.err = none ∧ ∀ ev ∈ r.log, ev.err = none) ∨
  (∃ msg pre ev em, r.err = some msg ∧ r.log = pre ++ [ev] ∧
    (∀ e ∈ pre, e.err = none) ∧ ev.err = some em)

/-! ## Evaluation of the library models -/

theorem Base_eval :
    Base "/a/b/c" = "c" ∧ Base "/a/b/c/" = "c" ∧ Base "" = "." ∧ Base "///" = "/" ∧
      Base "c" = "c" ∧ Base "a/b//" = "b" := by
  decide

theorem Join_eval :
    Join ["/a/b/", "x"] = "/a/b/x" ∧ Join [".", "x"] = "x" ∧
      Join ["/a/../b/./c//", "x"] = "/b/c/x" ∧ Join ["../a/../..", "x"] = "../../x" ∧
      Join ["/..", "x"] = "/x" ∧ Join ["", "x"] = "x" ∧ Join ["", ""] = "" ∧
      Join ["/home/u/proj", "src"] = "/home/u/proj/src" ∧ Join ["/", "x"] = "/x" := by
  decide

theorem ListSessions_eval :
    ListSessions (fun _ => ⟨none, "foo\nbar\n", ""⟩) = Except.ok ["foo", "bar"] ∧
      ListSessions (fun _ => ⟨none, "", ""⟩) = Except.ok [""] ∧
      ListSessions (fun _ => ⟨none, " \n\t\n", ""⟩) = Except.ok [""] ∧
      ListSessions (fun _ => ⟨none, "a\n\nb", ""⟩) = Except.ok ["a", "", "b"] ∧
      ListSessions (fun _ => ⟨some "exit status 1", "", "no server running"⟩) =
        Except.error "error running tmux command: exit status 1, stderr: no server running" := by
  decide

/-! ## `filepath.Join` on clean paths -/

theorem takeWhile_plain (s tail : List Char)
    (hs : ∀ c ∈ s, isPathSeparator c = false) (htail : tail = [] ∨ ∃ t, tail = '/' :: t) :
    (s ++ tail).takeWhile (fun x => !isPathSeparator x) = s ∧
      (s ++ tail).dropWhile (fun x => !isPathSeparator x) = tail := by
  have hall : ∀ c ∈ s, (fun x => !isPathSeparator x) c = true := by
    intro c hc; simp [hs c hc]
  rw [List.takeWhile_append_of_pos hall, List.dropWhile_append_of_pos hall]
  rcases htail with rfl | ⟨t, rfl⟩
  · simp
  · simp [isPathSeparator]

theorem cleanLoop_plain (rooted : Bool) (f : Nat) (s tail out : List Char) (dotdot : Nat)
    (hs : plainName s = true) (htail : tail = [] ∨ ∃ t, tail = '/' :: t) :
    cleanLoop rooted (f + 1) (s ++ tail) out dotdot =
      cleanLoop rooted f tail
        ((if (rooted && out.length != 1) || (!rooted && out.length != 0) then out ++ ['/']
          else out) ++ s) dotdot := by
  simp only [plainName, Bool.and_eq_true, Bool.not_eq_true', List.all_eq_true, bne_iff_ne,
    ne_eq] at hs
  obtain ⟨⟨⟨hne, hall⟩, hdot⟩, hdd⟩ := hs
  have hall1 : ∀ c ∈ s, isPathSeparator c = false := by
    intro c hc; simpa using hall c hc
  obtain ⟨htw, hdw⟩ := takeWhile_plain s tail hall1 htail
  cases s with
  | nil => simp at hne
  | cons c s1 =>
    have hc : isPathSeparator c = false := hall1 c (List.mem_cons_self _ _)
    have h2 : (c == '.' && ((s1 ++ tail).isEmpty ||
        ((s1 ++ tail).head?.map isPathSeparator == some true))) = false := by
      cases s1 with
      | nil => 
        have : c ≠ '.' := by intro h; apply hdot; rw [h]
        simp [this]
      | cons d s2 =>
        have hd : isPathSeparator d = false := hall1 d (by simp)
        simp [hd]
    have h3 : (c == '.' && (s1 ++ tail).head? == some '.' &&
        ((s1 ++ tail).tail.isEmpty ||
          ((s1 ++ tail).tail.head?.map isPathSeparator == some true))) = false := by
      cases s1 with
      | nil =>
        have : c ≠ '.' := by intro h; apply hdot; rw [h]
        simp [this]
      | cons d s2 =>
        cases s2 with
        | nil =>
          have : ¬ (c = '.' ∧ d = '.') := by
            rintro ⟨h1, h2⟩; apply hdd; rw [h1, h2]
          by_cases h1 : c = '.'
          · have h2 : d ≠ '.' := fun h => this ⟨h1, h⟩
            simp [h1, h2]
          · simp [h1]
        | cons e s3 =>
          have he : isPathSeparator e = false := hall1 e (by simp)
          simp [he]
    rw [List.cons_append]
    rw [List.cons_append] at htw hdw
    rw [cleanLoop]
    simp only [hc, h2, h3, htw, hdw, Bool.false_eq_true, if_false]

theorem joinSegs_tail (s : List Char) (ss : List (List Char)) :
    ∃ tail, joinSegs (s :: ss) = s ++ tail ∧ (tail = [] ∨ ∃ t, tail = '/' :: t) ∧
      (ss = [] → tail = []) ∧ (ss ≠ [] → tail = '/' :: joinSegs ss) := by
  cases ss with
  | nil => exact ⟨[], by simp [joinSegs], Or.inl rfl, fun _ => rfl, fun h => absurd rfl h⟩
  | cons t ss =>
    exact ⟨'/' :: joinSegs (t :: ss), rfl, Or.inr ⟨_, rfl⟩, (fun h => by cases h),
      fun _ => rfl⟩

theorem cleanLoop_joinSegs (rooted : Bool) (dotdot : Nat) :
    ∀ (segs : List (List Char)) (fuel : Nat) (out : List Char),
      segs ≠ [] → (∀ s ∈ segs, plainName s = true) →
      (joinSegs segs).length ≤ fuel →
      (if rooted then 1 else 0) ≤ out.length →
      cleanLoop rooted fuel (joinSegs segs) out dotdot =
        (if out.length = (if rooted then 1 else 0) then out else out ++ ['/']) ++
          joinSegs segs := by
  intro segs
  induction segs with
  | nil => intro _ _ h; exact absurd rfl h
  | cons s ss ih =>
    intro fuel out _ hplain hfuel hout
    have hs : plainName s = true := hplain s (List.mem_cons_self _ _)
    have hsne : s ≠ [] := by
      intro h; rw [h] at hs; simp [plainName] at hs
    obtain ⟨tail, hj, htail, hnil, hcons⟩ := joinSegs_tail s ss
    rw [hj] at hfuel ⊢
    have hlen : 0 < s.length := List.length_pos.mpr hsne
    simp only [List.length_append] at hfuel
    cases fuel with
    | zero => omega
    | succ f =>
      rw [cleanLoop_plain rooted f s tail out dotdot hs htail]
      have hout1 : (if (rooted && out.length != 1) || (!rooted && out.length != 0) then
          out ++ ['/'] else out) =
          (if out.length = (if rooted then 1 else 0) then out else out ++ ['/']) := by
        cases rooted <;> by_cases h : out.length = 0 <;> by_cases h1 : out.length = 1 <;>
          simp [h, h1]
      rw [hout1]
      generalize (if rooted = true then 1 else 0) = b at *
      have hlen2 : b < ((if out.length = b then out else out ++ ['/']) ++ s).length := by
        by_cases h : out.length = b
        · simp only [h, if_true, List.length_append]; omega
        · simp only [h, if_false, List.length_append, List.length_singleton]; omega
      by_cases hss : ss = []
      · rw [hnil hss]
        cases f <;> simp [cleanLoop]
      · have htl := hcons hss
        subst htl
        simp only [List.length_cons] at hfuel
        cases f with
        | zero => omega
        | succ f1 =>
          rw [cleanLoop]
          simp only [isPathSeparator, beq_self_eq_true, if_true]
          rw [ih f1 _ hss (fun x hx => hplain x (List.mem_cons_of_mem _ hx)) (by omega)
            (by omega)]
          rw [if_neg (by omega)]
          simp

theorem cleanChars_rooted (segs : List (List Char)) (hne : segs ≠ [])
    (hplain : ∀ s ∈ segs, plainName s = true) :
    cleanChars ('/' :: joinSegs segs) = '/' :: joinSegs segs := by
  have h := cleanLoop_joinSegs true 1 segs ('/' :: joinSegs segs).length ['/'] hne hplain
    (by simp) (by simp)
  simp only [cleanChars, isPathSeparator, beq_self_eq_true, if_true, h]
  simp

theorem cleanChars_relative (segs : List (List Char)) (hne : segs ≠ [])
    (hplain : ∀ s ∈ segs, plainName s = true) :
    cleanChars (joinSegs segs) = joinSegs segs := by
  have h := cleanLoop_joinSegs false 0 segs (joinSegs segs).length [] hne hplain
    (by simp) (by simp)
  cases segs with
  | nil => exact absurd rfl hne
  | cons s ss =>
    have hs : plainName s = true := hplain s (List.mem_cons_self _ _)
    obtain ⟨tail, hj, _⟩ := joinSegs_tail s ss
    cases s with
    | nil => simp [plainName] at hs
    | cons c s1 =>
      have hc : isPathSeparator c = false := by
        simp only [plainName, Bool.and_eq_true, List.all_eq_true] at hs
        simpa using hs.1.1.2 c (List.mem_cons_self _ _)
      rw [hj] at h ⊢
      rw [List.cons_append] at h ⊢
      simp only [cleanChars, hc, Bool.false_eq_true, if_false, h]
      simp

theorem joinSegs_append_singleton (segs : List (List Char)) (n : List Char) (hne : segs ≠ []) :
    joinSegs (segs ++ [n]) = joinSegs segs ++ '/' :: n := by
  induction segs with
  | nil => exact absurd rfl hne
  | cons s ss ih =>
    cases ss with
    | nil => rfl
    | cons t ss =>
      have := ih (by simp)
      simp only [List.cons_append] at this ⊢
      simp only [joinSegs, this, List.append_assoc, List.cons_append]

/-- On a clean path `filepath.Join` is plain concatenation: for a folder path
made of plain elements joined by single separators, absolute or relative, and
a plain entry name, `Join(path, name)` is `path`, a separator, and `name`. -/
theorem Join_clean (path name : String) (segs : List (List Char)) (hne : segs ≠ [])
    (hplain : ∀ s ∈ segs, plainName s = true)
    (hpath : path.data = '/' :: joinSegs segs ∨ path.data = joinSegs segs)
    (hname : plainName name.data = true) :
    Join [path, name] = path ++ "/" ++ name := by
  have hp : path ≠ "" := by
    intro h
    rw [h] at hpath
    rcases hpath with h1 | h1
    · cases h1
    · cases segs with
      | nil => exact hne rfl
      | cons s ss =>
        obtain ⟨tail, hj, _⟩ := joinSegs_tail s ss
        have hs : plainName s = true := hplain s (List.mem_cons_self _ _)
        rw [hj] at h1
        cases s with
        | nil => simp [plainName] at hs
        | cons c s1 => cases h1
  have hne2 : segs ++ [name.data] ≠ [] := by simp
  have hplain2 : ∀ s ∈ segs ++ [name.data], plainName s = true := by
    intro s hs
    rcases List.mem_append.mp hs with h | h
    · exact hplain s h
    · rw [List.mem_singleton.mp h]; exact hname
  simp only [Join, hp, ne_eq, not_false_eq_true, if_true, stringsJoin, Clean]
  apply String.ext
  simp only [String.data_append]
  show cleanChars (path.data ++ ['/'] ++ name.data) = path.data ++ ['/'] ++ name.data
  rcases hpath with h1 | h1
  · rw [h1]
    have := cleanChars_rooted _ hne2 hplain2
    rw [joinSegs_append_singleton _ _ hne] at this
    simpa using this
  · rw [h1]
    have := cleanChars_relative _ hne2 hplain2
    rw [joinSegs_append_singleton _ _ hne] at this
    simpa using this

theorem Join_clean_check :
    Join ["/home/u/proj", "src"] = "/home/u/proj" ++ "/" ++ "src" :=
  Join_clean "/home/u/proj" "src" ["home".data, "u".data, "proj".data] (by decide) (by decide)
    (Or.inl (by decide)) (by decide)

/-! ## Lemmas on logs and on the pane loop -/

theorem calls_append (a b : List Event) : calls (a ++ b) = calls a ++ calls b := by
  induction a with
  | nil => rfl
  | cons e a ih =>
    obtain ⟨st, er⟩ := e
    cases st <;> simp [calls, ih]

theorem LogShape.cons_ok {r : Outcome} (st : Step) (h : LogShape r) :
    LogShape ⟨⟨st, none⟩ :: r.log, r.err⟩ := by
  rcases h with ⟨h1, h2⟩ | ⟨msg, pre, ev, em, h1, h2, h3, h4⟩
  · left
    refine ⟨h1, ?_⟩
    intro e he
    rcases List.mem_cons.mp he with rfl | he
    · rfl
    · exact h2 e he
  · right
    refine ⟨msg, ⟨st, none⟩ :: pre, ev, em, h1, ?_, ?_, h4⟩
    · simp [h2]
    · intro e he
      rcases List.mem_cons.mp he with rfl | he
      · rfl
      · exact h3 e he

theorem LogShape.append_ok {r : Outcome} (pre : List Event)
    (hpre : ∀ e ∈ pre, e.err = none) (h : LogShape r) :
    LogShape ⟨pre ++ r.log, r.err⟩ := by
  induction pre with
  | nil => simpa using h
  | cons e pre ih =>
    have he : e.err = none := hpre e (List.mem_cons_self _ _)
    have := LogShape.cons_ok e.step (ih (fun x hx => hpre x (List.mem_cons_of_mem _ hx)))
    obtain ⟨st, er⟩ := e
    simp only at he
    subst he
    simpa using this

theorem LogShape.fail (pre : List Event) (hpre : ∀ e ∈ pre, e.err = none) (st : Step)
    (em msg : String) : LogShape ⟨pre ++ [⟨st, some em⟩], some msg⟩ :=
  Or.inr ⟨msg, pre, ⟨st, some em⟩, em, rfl, rfl, hpre, rfl⟩

theorem LogShape.err_none_iff {r : Outcome} (h : LogShape r) :
    r.err = none ↔ ∀ ev ∈ r.log, ev.err = none := by
  rcases h with ⟨h1, h2⟩ | ⟨msg, pre, ev, em, h1, h2, h3, h4⟩
  · exact ⟨fun _ => h2, fun _ => h1⟩
  · constructor
    · intro h; rw [h1] at h; cases h
    · intro h
      have := h ev (by rw [h2]; simp)
      rw [h4] at this; cases this

theorem paneLoop_shape (env : Env) (p n : String) :
    ∀ (es : List DirEntry) (i : Nat) (hist : List (List String)),
      LogShape (paneLoop env p n i es hist) := by
  intro es
  induction es with
  | nil => intro i hist; left; simp [paneLoop]
  | cons e es ih =>
    intro i hist
    unfold paneLoop
    split
    · exact ih _ _
    · split
      · dsimp only
        split
        · exact LogShape.fail [] (by simp) _ _ _
        · exact LogShape.cons_ok _ (ih _ _)
      · exact ih _ _

theorem paneLoop_eq_allOk (env : Env) (p n : String) (l : List DirEntry) :
    ∀ (es : List DirEntry) (i : Nat) (hist hist1 : List (List String)),
      (∀ ev ∈ (paneLoop env p n i es hist).log, ev.err = none) →
      paneLoop env p n i es hist = paneLoop (allOk l) p n i es hist1 := by
  intro es
  induction es with
  | nil => intro i hist hist1 _; simp [paneLoop]
  | cons e es ih =>
    intro i hist hist1
    unfold paneLoop
    split
    · exact ih _ _ _
    · split
      · dsimp only
        split
        · intro h
          have := h _ (List.mem_singleton.mpr rfl)
          cases this
        · intro h
          have h1 := ih (i + 1) (hist ++ [paneArgs i n (Join [p, e.name])])
            (hist1 ++ [paneArgs i n (Join [p, e.name])])
            (fun ev hev => h ev (List.mem_cons_of_mem _ hev))
          simp only [allOk]
          simp only [allOk] at h1
          rw [h1]
      · exact ih _ _ _

theorem paneLoop_calls_prefix (env : Env) (p n : String) (l : List DirEntry) :
    ∀ (es : List DirEntry) (i : Nat) (hist hist1 : List (List String)),
      calls (paneLoop env p n i es hist).log <+:
        calls (paneLoop (allOk l) p n i es hist1).log := by
  intro es
  induction es with
  | nil => intro i hist hist1; simp [paneLoop]
  | cons e es ih =>
    intro i hist hist1
    unfold paneLoop
    split
    · exact ih _ _ _
    · split
      · dsimp only
        split
        · simp only [allOk, calls]
          exact ⟨_, rfl⟩
        · simp only [allOk, calls]
          have h1 := ih (i + 1) (hist ++ [paneArgs i n (Join [p, e.name])])
            (hist1 ++ [paneArgs i n (Join [p, e.name])])
          simp only [allOk] at h1
          exact (List.prefix_cons_inj _).mpr h1
      · exact ih _ _ _

theorem paneLoop_allOk_err (p n : String) (l : List DirEntry) :
    ∀ (es : List DirEntry) (i : Nat) (hist : List (List String)),
      (paneLoop (allOk l) p n i es hist).err = none := by
  intro es
  induction es with
  | nil => intro i hist; simp [paneLoop]
  | cons e es ih =>
    intro i hist
    unfold paneLoop
    split
    · exact ih _ _
    · split
      · simp only [allOk]
        have h1 := ih (i + 1) (hist ++ [paneArgs i n (Join [p, e.name])])
        simp only [allOk] at h1
        exact h1
      · exact ih _ _

theorem paneLoop_allOk_calls_succ (p n : String) (l : List DirEntry) :
    ∀ (es : List DirEntry) (k : Nat) (hist : List (List String)),
      calls (paneLoop (allOk l) p n (k + 1) es hist).log =
        (es.filter visibleDir).map (fun e => splitWindowArgs n (Join [p, e.name])) := by
  intro es
  induction es with
  | nil => intro k hist; simp [paneLoop, calls]
  | cons e es ih =>
    intro k hist
    unfold paneLoop
    by_cases hd : e.isDir = true
    · by_cases hh : HasPrefix e.name "." = true
      · have hv : visibleDir e = false := by simp [visibleDir, hd, hh]
        simp only [hd, hh, Bool.and_self, if_true, List.filter_cons, hv]
        simpa using ih (k + 1) hist
      · have hv : visibleDir e = true := by simp [visibleDir, hd, hh]
        have h1 := fun h => ih (k + 1) h
        simp only [allOk] at h1
        simp [hd, hh, List.filter_cons, hv, allOk, calls, paneArgs, h1]
    · have hv : visibleDir e = false := by simp [visibleDir, hd]
      simp only [hd, Bool.false_and, List.filter_cons, hv]
      simpa using ih (k + 1) hist

theorem paneLoop_allOk_calls_zero (p n : String) (l : List DirEntry) (e : DirEntry)
    (es : List DirEntry) (hist : List (List String)) :
    calls (paneLoop (allOk l) p n 0 (e :: es) hist).log =
      (if visibleDir e then [sendKeysArgs n (Join [p, e.name])] else []) ++
        (es.filter visibleDir).map (fun e => splitWindowArgs n (Join [p, e.name])) := by
  unfold paneLoop
  by_cases hd : e.isDir = true
  · by_cases hh : HasPrefix e.name "." = true
    · have hv : visibleDir e = false := by simp [visibleDir, hd, hh]
      simp only [hd, hh, Bool.and_self, if_true, hv]
      simpa using paneLoop_allOk_calls_succ p n l es 0 hist
    · have hv : visibleDir e = true := by simp [visibleDir, hd, hh]
      have h1 := fun h => paneLoop_allOk_calls_succ p n l es 0 h
      simp only [allOk, Nat.zero_add] at h1
      simp [hd, hh, hv, allOk, calls, paneArgs, h1]
  · have hv : visibleDir e = false := by simp [visibleDir, hd]
    simp only [hd, Bool.false_and, hv]
    simpa using paneLoop_allOk_calls_succ p n l es 0 hist

/-! ## Lemmas on `Launch` -/

theorem Launch_allOk_nil (path : String) :
    Launch (allOk []) path =
      ⟨[⟨Step.chdir path, none⟩, ⟨Step.tmux (newSessionArgs (SessionName path) path), none⟩,
        ⟨Step.readDir path, none⟩], none⟩ := by
  simp [Launch, allOk]

theorem Launch_allOk_cons (path : String) (e : DirEntry) (es : List DirEntry) :
    calls (Launch (allOk (e :: es)) path).log =
      newSessionArgs (SessionName path) path :: newWindowArgs (SessionName path) ::
        (calls (paneLoop (allOk (e :: es)) path (SessionName path) 0 (e :: es)
            [newSessionArgs (SessionName path) path, newWindowArgs (SessionName path)]).log ++
          [selectLayoutArgs (SessionName path)]) ∧
    (Launch (allOk (e :: es)) path).err = none := by
  have herr := paneLoop_allOk_err path (SessionName path) (e :: es) (e :: es) 0
    [newSessionArgs (SessionName path) path, newWindowArgs (SessionName path)]
  simp only [allOk] at herr
  simp [Launch, allOk, herr, calls_append, calls]

theorem Launch_shape (env : Env) (path : String) : LogShape (Launch env path) := by
  unfold Launch
  split
  · exact LogShape.fail [] (by simp) _ _ _
  · dsimp only
    split
    · exact LogShape.fail _ (by simp) _ _ _
    · split
      · exact LogShape.fail _ (by simp) _ _ _
      · split
        · left; simp
        · split
          · exact LogShape.fail _ (by simp) _ _ _
          · have hs := paneLoop_shape env path (SessionName path) ‹List DirEntry› 0
              [newSessionArgs (SessionName path) path, newWindowArgs (SessionName path)]
            split
            · rename_i herr
              have := LogShape.append_ok
                [⟨Step.chdir path, none⟩,
                 ⟨Step.tmux (newSessionArgs (SessionName path) path), none⟩,
                 ⟨Step.readDir path, none⟩,
                 ⟨Step.tmux (newWindowArgs (SessionName path)), none⟩] (by simp) hs
              simpa [herr] using this
            · rename_i herr
              have hall := (LogShape.err_none_iff hs).mp herr
              split
              · refine LogShape.fail _ ?_ _ _ _
                intro ev hev
                simp only [List.mem_append, List.mem_cons, List.mem_singleton,
                  List.not_mem_nil, or_false] at hev
                rcases hev with ((((rfl | h) | rfl) | rfl) | rfl) | h
                all_goals first | rfl | exact hall _ h
              · left
                refine ⟨rfl, ?_⟩
                intro ev hev
                simp only [List.mem_append, List.mem_cons, List.mem_singleton,
                  List.not_mem_nil, or_false] at hev
                rcases hev with (((((rfl | h) | rfl) | rfl) | rfl) | h) | rfl
                all_goals first | rfl | exact hall _ h

/-- A run in which no performed step fails is the run of the all-succeeding
environment on the listing that was read. -/
theorem Launch_eq_allOk (env : Env) (path : String) (l : List DirEntry)
    (hread : env.readDir path = Except.ok l)
    (hok : ∀ ev ∈ (Launch env path).log, ev.err = none) :
    Launch env path = Launch (allOk l) path := by
  have hshape := Launch_shape env path
  have herr := (LogShape.err_none_iff hshape).mpr hok
  revert hok herr
  unfold Launch
  simp only [allOk, hread]
  split
  · intro _ h; cases h
  · split
    · intro _ h; cases h
    · split
      · intro _ _; rfl
      · split
        · intro _ h; cases h
        · split
          · intro _ h; cases h
          · rename_i hpane
            have hs := paneLoop_shape env path (SessionName path) l 0
              [newSessionArgs (SessionName path) path, newWindowArgs (SessionName path)]
            have hall := (LogShape.err_none_iff hs).mp hpane
            have heq := paneLoop_eq_allOk env path (SessionName path) l l 0
              [newSessionArgs (SessionName path) path, newWindowArgs (SessionName path)]
              [newSessionArgs (SessionName path) path, newWindowArgs (SessionName path)] hall
            have herr2 := paneLoop_allOk_err path (SessionName path) l l 0
              [newSessionArgs (SessionName path) path, newWindowArgs (SessionName path)]
            simp only [allOk] at heq herr2
            split
            · intro _ h; cases h
            · intro _ _
              simp only [heq, herr2]

/-- The tmux calls of any run are an initial segment of those of the
all-succeeding run on the listing read. -/
theorem Launch_calls_prefix (env : Env) (path : String) (l : List DirEntry)
    (hread : ∀ l1, env.readDir path = Except.ok l1 → l1 = l) :
    calls (Launch env path).log <+: calls (Launch (allOk l) path).log := by
  have hR : [newSessionArgs (SessionName path) path] <+: calls (Launch (allOk l) path).log := by
    cases l with
    | nil => rw [Launch_allOk_nil]; simp [calls]
    | cons e es => rw [(Launch_allOk_cons path e es).1]; simp
  cases hc : env.chdir path with
  | some err => simp [Launch, hc, calls]
  | none =>
    cases hs : env.run [] (newSessionArgs (SessionName path) path) with
    | some err => simpa [Launch, hc, hs, calls] using hR
    | none =>
      cases hr : env.readDir path with
      | error err => simpa [Launch, hc, hs, hr, calls] using hR
      | ok l1 =>
        have hl : l1 = l := hread l1 hr
        subst hl
        cases l1 with
        | nil => simp [Launch, hc, hs, hr, calls, allOk]
        | cons e es =>
          rw [(Launch_allOk_cons path e es).1]
          have hpre := paneLoop_calls_prefix env path (SessionName path) (e :: es) (e :: es) 0
            [newSessionArgs (SessionName path) path, newWindowArgs (SessionName path)]
            [newSessionArgs (SessionName path) path, newWindowArgs (SessionName path)]
          cases hw : env.run [newSessionArgs (SessionName path) path]
              (newWindowArgs (SessionName path)) with
          | some err => simp [Launch, hc, hs, hr, hw, calls]
          | none =>
            cases hp : (paneLoop env path (SessionName path) 0 (e :: es)
              [newSessionArgs (SessionName path) path, newWindowArgs (SessionName path)]).err with
            | some err =>
              simp only [Launch, hc, hs, hr, hw, hp, calls, calls_append, List.length_cons,
                Nat.add_one_ne_zero, if_false, List.nil_append, List.append_nil,
                List.cons_append, List.cons_prefix_cons, true_and]
              exact hpre.trans (List.prefix_append _ _)
            | none =>
              have hsh := paneLoop_shape env path (SessionName path) (e :: es) 0
                [newSessionArgs (SessionName path) path, newWindowArgs (SessionName path)]
              have hall := (LogShape.err_none_iff hsh).mp hp
              have heq := paneLoop_eq_allOk env path (SessionName path) (e :: es) (e :: es) 0
                [newSessionArgs (SessionName path) path, newWindowArgs (SessionName path)]
                [newSessionArgs (SessionName path) path, newWindowArgs (SessionName path)] hall
              rw [← heq]
              simp only [Launch, hc, hs, hr, hw, hp, List.length_cons,
                Nat.add_one_ne_zero, if_false]
              split <;> simp [calls, calls_append]

/-! ## Claims on `Launch` -/

/-- C7: when the listing has zero entries and chdir and new-session succeed,
`Launch` issues exactly one tmux call, the new-session call with the single
window `root`, and returns nil. -/
theorem Launch_empty_listing (env : Env) (path : String)
    (hc : env.chdir path = none)
    (hs : env.run [] ["new-session", "-d", "-s", SessionName path, "-c", path, "-n", "root"]
      = none)
    (hr : env.readDir path = Except.ok []) :
    calls (Launch env path).log =
        [["new-session", "-d", "-s", SessionName path, "-c", path, "-n", "root"]] ∧
      (Launch env path).err = none := by
  have hs1 : env.run [] (newSessionArgs (SessionName path) path) = none := hs
  simp only [Launch, hc, hs1, hr]
  exact ⟨rfl, rfl⟩

theorem Launch_empty_listing_witness :
    calls (Launch (allOk []) "/home/u/proj").log =
        [["new-session", "-d", "-s", "proj", "-c", "/home/u/proj", "-n", "root"]] ∧
      (Launch (allOk []) "/home/u/proj").err = none :=
  Launch_empty_listing (allOk []) "/home/u/proj" rfl rfl rfl

/-- C6: when the listing is non-empty but holds no non-hidden directory and
every step succeeds, `Launch` issues exactly new-session, new-window and
select-layout, in this order, no send-keys and no split-window call, and
returns nil. -/
theorem Launch_no_visible_dir (env : Env) (path : String) (listing : List DirEntry)
    (hne : listing ≠ [])
    (hnone : ∀ e ∈ listing, e.isDir = false ∨ HasPrefix e.name "." = true)
    (hread : env.readDir path = Except.ok listing)
    (hok : ∀ ev ∈ (Launch env path).log, ev.err = none) :
    calls (Launch env path).log =
        [["new-session", "-d", "-s", SessionName path, "-c", path, "-n", "root"],
         ["new-window", "-t", SessionName path, "-n", "SubFolders"],
         ["select-layout", "-t", SessionName path ++ ":1", "tiled"]] ∧
      (Launch env path).err = none := by
  rw [Launch_eq_allOk env path listing hread hok]
  have hfil : listing.filter visibleDir = [] := by
    rw [List.filter_eq_nil_iff]
    intro e he
    rcases hnone e he with h | h <;> simp [visibleDir, h]
  cases listing with
  | nil => exact absurd rfl hne
  | cons e es =>
    have hve : visibleDir e = false := by
      have := List.filter_eq_nil_iff.mp hfil e (List.mem_cons_self _ _)
      simpa using this
    have hes : es.filter visibleDir = [] := by
      rw [List.filter_eq_nil_iff]
      intro x hx
      exact List.filter_eq_nil_iff.mp hfil x (List.mem_cons_of_mem _ hx)
    obtain ⟨h1, h2⟩ := Launch_allOk_cons path e es
    rw [h1, paneLoop_allOk_calls_zero, hve, hes]
    exact ⟨rfl, h2⟩

theorem Launch_no_visible_dir_witness :
    calls (Launch (allOk [⟨".git", true⟩, ⟨".env", false⟩, ⟨"notes.txt", false⟩])
          "/home/u/proj").log =
        [["new-session", "-d", "-s", SessionName "/home/u/proj", "-c", "/home/u/proj",
          "-n", "root"],
         ["new-window", "-t", SessionName "/home/u/proj", "-n", "SubFolders"],
         ["select-layout", "-t", SessionName "/home/u/proj" ++ ":1", "tiled"]] ∧
      (Launch (allOk [⟨".git", true⟩, ⟨".env", false⟩, ⟨"notes.txt", false⟩])
          "/home/u/proj").err = none :=
  Launch_no_visible_dir (allOk [⟨".git", true⟩, ⟨".env", false⟩, ⟨"notes.txt", false⟩])
    "/home/u/proj" _ (by decide) (by decide) rfl (by decide)

/-- C3, at a concrete input: for the folder path `/a/b/` (with a trailing
separator) and the listing `[x]`, the send-keys argument is `cd /a/b/x`, the
cleaned join, and not `cd ` followed by `<path>/x`, which is `cd /a/b//x`. -/
theorem Launch_literal_path_counterexample :
    calls (Launch (allOk [⟨"x", true⟩]) "/a/b/").log =
        [["new-session", "-d", "-s", "b", "-c", "/a/b/", "-n", "root"],
         ["new-window", "-t", "b", "-n", "SubFolders"],
         ["send-keys", "-t", "b:1.0", "cd /a/b/x", "C-m"],
         ["select-layout", "-t", "b:1", "tiled"]] ∧
      "cd /a/b/x" ≠ "cd " ++ ("/a/b/" ++ "/" ++ "x") := by
  decide

/-- C3 (amended): for a listing of non-hidden directories `d0, d1, ..., dn`
on which every step succeeds, `Launch` issues new-session, new-window, then
exactly `n + 2` further calls: one send-keys to pane `<name>:1.0` with
`cd filepath.Join(path, d0)` and `C-m`, one split-window `-c
filepath.Join(path, di)` for each `i = 1..n` in listing order, and one
select-layout tiled; it returns nil.  `filepath.Join(path, d)` is the cleaned
form of `<path>/d`, and is `<path>/d` itself when `path` is made of plain
elements joined by single separators and `d` is a plain name. -/
theorem Launch_visible_dirs (env : Env) (path : String) (d0 : DirEntry) (ds : List DirEntry)
    (hvis : ∀ e ∈ d0 :: ds, e.isDir = true ∧ HasPrefix e.name "." = false)
    (hread : env.readDir path = Except.ok (d0 :: ds))
    (hok : ∀ ev ∈ (Launch env path).log, ev.err = none) :
    calls (Launch env path).log =
        ["new-session", "-d", "-s", SessionName path, "-c", path, "-n", "root"] ::
        ["new-window", "-t", SessionName path, "-n", "SubFolders"] ::
        (["send-keys", "-t", SessionName path ++ ":1.0", "cd " ++ Join [path, d0.name], "C-m"] ::
          ds.map (fun d => ["split-window", "-t", SessionName path ++ ":1", "-c",
            Join [path, d.name]]) ++
          [["select-layout", "-t", SessionName path ++ ":1", "tiled"]]) ∧
      (calls (Launch env path).log).length = 2 + (ds.length + 2) ∧
      (Launch env path).err = none ∧
      (∀ segs : List (List Char), segs ≠ [] → (∀ s ∈ segs, plainName s = true) →
        (path.data = '/' :: joinSegs segs ∨ path.data = joinSegs segs) →
        ∀ d ∈ d0 :: ds, plainName d.name.data = true →
          Join [path, d.name] = path ++ "/" ++ d.name) := by
  rw [Launch_eq_allOk env path (d0 :: ds) hread hok]
  have hall : ∀ e ∈ d0 :: ds, visibleDir e = true := by
    intro e he
    obtain ⟨h1, h2⟩ := hvis e he
    simp [visibleDir, h1, h2]
  have h0 : visibleDir d0 = true := hall d0 (List.mem_cons_self _ _)
  have hfil : ds.filter visibleDir = ds :=
    List.filter_eq_self.mpr (fun e he => hall e (List.mem_cons_of_mem _ he))
  obtain ⟨h1, h2⟩ := Launch_allOk_cons path d0 ds
  rw [h1, paneLoop_allOk_calls_zero, h0, hfil]
  refine ⟨rfl, ?_, h2, ?_⟩
  · simp
    omega
  · intro segs hne hplain hpath d _ hd
    exact Join_clean path d.name segs hne hplain hpath hd

theorem Launch_visible_dirs_witness :
    calls (Launch (allOk [⟨"x", true⟩, ⟨"y", true⟩, ⟨"z", true⟩]) "/home/u/proj").log =
        [["new-session", "-d", "-s", "proj", "-c", "/home/u/proj", "-n", "root"],
         ["new-window", "-t", "proj", "-n", "SubFolders"],
         ["send-keys", "-t", "proj:1.0", "cd /home/u/proj/x", "C-m"],
         ["split-window", "-t", "proj:1", "-c", "/home/u/proj/y"],
         ["split-window", "-t", "proj:1", "-c", "/home/u/proj/z"],
         ["select-layout", "-t", "proj:1", "tiled"]] ∧
      (Launch (allOk [⟨"x", true⟩, ⟨"y", true⟩, ⟨"z", true⟩]) "/home/u/proj").err = none := by
  have h := Launch_visible_dirs (allOk [⟨"x", true⟩, ⟨"y", true⟩, ⟨"z", true⟩])
    "/home/u/proj" ⟨"x", true⟩ [⟨"y", true⟩, ⟨"z", true⟩] (by decide) rfl (by decide)
  refine ⟨?_, h.2.2.1⟩
  rw [h.1]
  decide

/-- C10: for a non-empty listing on which every step succeeds, the calls
between new-window and select-layout correspond one-to-one, in listing order,
with the entries that are directories whose name does not start with `.`:
there are as many, the call for entry `e` is a send-keys or a split-window
call carrying `filepath.Join(folderPath, e.Name)`, and at most one of them is
a send-keys call. -/
theorem Launch_pane_calls (env : Env) (path : String) (listing : List DirEntry)
    (hne : listing ≠ [])
    (hread : env.readDir path = Except.ok listing)
    (hok : ∀ ev ∈ (Launch env path).log, ev.err = none) :
    ∃ (panes : List (List String)) (kinds : List Bool),
      calls (Launch env path).log =
        ["new-session", "-d", "-s", SessionName path, "-c", path, "-n", "root"] ::
        ["new-window", "-t", SessionName path, "-n", "SubFolders"] ::
        (panes ++ [["select-layout", "-t", SessionName path ++ ":1", "tiled"]]) ∧
      panes.length =
        (listing.filter (fun e => e.isDir && !HasPrefix e.name ".")).length ∧
      kinds.length = panes.length ∧
      panes = List.zipWith
        (fun (k : Bool) (e : DirEntry) =>
          if k then
            ["send-keys", "-t", SessionName path ++ ":1.0", "cd " ++ Join [path, e.name], "C-m"]
          else ["split-window", "-t", SessionName path ++ ":1", "-c", Join [path, e.name]])
        kinds (listing.filter (fun e => e.isDir && !HasPrefix e.name ".")) ∧
      kinds.count true ≤ 1 := by
  rw [Launch_eq_allOk env path listing hread hok]
  have hvd : (fun e : DirEntry => e.isDir && !HasPrefix e.name ".") = visibleDir := rfl
  rw [hvd]
  cases listing with
  | nil => exact absurd rfl hne
  | cons e es =>
    obtain ⟨h1, _⟩ := Launch_allOk_cons path e es
    rw [h1, paneLoop_allOk_calls_zero]
    have hsplit : ∀ l : List DirEntry,
        l.map (fun e => splitWindowArgs (SessionName path) (Join [path, e.name])) =
        List.zipWith
          (fun (k : Bool) (e : DirEntry) =>
            if k then
              ["send-keys", "-t", SessionName path ++ ":1.0", "cd " ++ Join [path, e.name],
                "C-m"]
            else ["split-window", "-t", SessionName path ++ ":1", "-c", Join [path, e.name]])
          (List.replicate l.length false) l := by
      intro l
      induction l with
      | nil => rfl
      | cons x l ih =>
        simp only [List.map_cons, List.length_cons, List.replicate_succ, List.zipWith_cons_cons,
          ih]
        rfl
    by_cases hv : visibleDir e = true
    · refine ⟨_, true :: List.replicate (es.filter visibleDir).length false, rfl, ?_, ?_, ?_, ?_⟩
      · simp [hv, List.filter_cons]
      · simp [hv]
      · simp only [hv, if_true, List.filter_cons, List.singleton_append, List.zipWith_cons_cons,
          hsplit]
        rfl
      · simp [List.count_cons, List.count_replicate]
    · have hv1 : visibleDir e = false := by simpa using hv
      refine ⟨_, List.replicate (es.filter visibleDir).length false, rfl, ?_, ?_, ?_, ?_⟩
      · simp [hv1, List.filter_cons]
      · simp [hv1]
      · simp only [hv1, List.filter_cons, List.nil_append, hsplit]
        rfl
      · simp [List.count_replicate]

theorem Launch_pane_calls_witness :
    ∃ (panes : List (List String)) (kinds : List Bool),
      calls (Launch (allOk [⟨".git", true⟩, ⟨"a", true⟩, ⟨"f", false⟩, ⟨"b", true⟩])
          "/p").log =
        ["new-session", "-d", "-s", SessionName "/p", "-c", "/p", "-n", "root"] ::
        ["new-window", "-t", SessionName "/p", "-n", "SubFolders"] ::
        (panes ++ [["select-layout", "-t", SessionName "/p" ++ ":1", "tiled"]]) ∧
      panes.length =
        (([⟨".git", true⟩, ⟨"a", true⟩, ⟨"f", false⟩, ⟨"b", true⟩] : List DirEntry).filter
          (fun e => e.isDir && !HasPrefix e.name ".")).length ∧
      kinds.length = panes.length ∧
      panes = List.zipWith
        (fun (k : Bool) (e : DirEntry) =>
          if k then
            ["send-keys", "-t", SessionName "/p" ++ ":1.0", "cd " ++ Join ["/p", e.name], "C-m"]
          else ["split-window", "-t", SessionName "/p" ++ ":1", "-c", Join ["/p", e.name]])
        kinds (([⟨".git", true⟩, ⟨"a", true⟩, ⟨"f", false⟩, ⟨"b", true⟩] :
          List DirEntry).filter (fun e => e.isDir && !HasPrefix e.name ".")) ∧
      kinds.count true ≤ 1 :=
  Launch_pane_calls (allOk [⟨".git", true⟩, ⟨"a", true⟩, ⟨"f", false⟩, ⟨"b", true⟩]) "/p" _
    (by decide) rfl (by decide)

/-- C1 (behaviour of the code): when the first entry of the listing is a
file or a hidden directory and every step succeeds, no send-keys call is
issued at all and every non-hidden directory, the first one included,
receives a split-window call, because the test `i == 0` is on the index in
the listing and not on the number of directories processed. -/
theorem Launch_first_entry_skipped (env : Env) (path : String) (e : DirEntry)
    (es : List DirEntry)
    (hfirst : e.isDir = false ∨ HasPrefix e.name "." = true)
    (hread : env.readDir path = Except.ok (e :: es))
    (hok : ∀ ev ∈ (Launch env path).log, ev.err = none) :
    calls (Launch env path).log =
      ["new-session", "-d", "-s", SessionName path, "-c", path, "-n", "root"] ::
      ["new-window", "-t", SessionName path, "-n", "SubFolders"] ::
      ((es.filter (fun d => d.isDir && !HasPrefix d.name ".")).map
          (fun d => ["split-window", "-t", SessionName path ++ ":1", "-c",
            Join [path, d.name]]) ++
        [["select-layout", "-t", SessionName path ++ ":1", "tiled"]]) := by
  rw [Launch_eq_allOk env path (e :: es) hread hok]
  have hve : visibleDir e = false := by
    rcases hfirst with h | h <;> simp [visibleDir, h]
  rw [(Launch_allOk_cons path e es).1, paneLoop_allOk_calls_zero, hve]
  rfl

theorem Launch_first_entry_file :
    calls (Launch (allOk [⟨"README.md", false⟩, ⟨"src", true⟩, ⟨"docs", true⟩])
        "/home/u/proj").log =
      [["new-session", "-d", "-s", "proj", "-c", "/home/u/proj", "-n", "root"],
       ["new-window", "-t", "proj", "-n", "SubFolders"],
       ["split-window", "-t", "proj:1", "-c", "/home/u/proj/src"],
       ["split-window", "-t", "proj:1", "-c", "/home/u/proj/docs"],
       ["select-layout", "-t", "proj:1", "tiled"]] := by
  rw [Launch_first_entry_skipped (allOk [⟨"README.md", false⟩, ⟨"src", true⟩, ⟨"docs", true⟩])
    "/home/u/proj" ⟨"README.md", false⟩ [⟨"src", true⟩, ⟨"docs", true⟩] (by decide) rfl
    (by decide)]
  decide

/-- C4, at a concrete input: when select-layout fails on the listing `[x]`,
`Launch` returns an error and the calls it issued are all four calls of the
all-succeeding run on that listing, not a strict prefix of them. -/
theorem Launch_layout_failure_counterexample :
    (Launch layoutFails "/p").err = some "failed to select layout: exit status 1" ∧
      calls (Launch layoutFails "/p").log = calls (Launch (allOk [⟨"x", true⟩]) "/p").log ∧
      (calls (Launch layoutFails "/p").log).length = 4 := by
  decide

/-- C4 (amended): `Launch` returns nil exactly when no performed step
fails; when it returns an error the failing step is the last step
performed, every step before it succeeded, and the tmux calls issued are a
prefix of the calls of the all-succeeding run on the same listing, which
ends with the failing call when that step is a tmux call: the calls that
completed before a failing tmux call are a strict prefix. -/
theorem Launch_failure_stops (env : Env) (path : String) :
    ((Launch env path).err = none ↔ ∀ ev ∈ (Launch env path).log, ev.err = none) ∧
    (∀ msg, (Launch env path).err = some msg →
      ∃ pre ev em, (Launch env path).log = pre ++ [ev] ∧
        (∀ e ∈ pre, e.err = none) ∧ ev.err = some em) ∧
    (∀ l, (∀ l1, env.readDir path = Except.ok l1 → l1 = l) →
      calls (Launch env path).log <+: calls (Launch (allOk l) path).log) ∧
    (∀ l pre args em, (∀ l1, env.readDir path = Except.ok l1 → l1 = l) →
      (Launch env path).log = pre ++ [⟨Step.tmux args, some em⟩] →
      calls pre ++ [args] <+: calls (Launch (allOk l) path).log ∧
        (calls pre).length < (calls (Launch (allOk l) path).log).length) := by
  have hshape := Launch_shape env path
  refine ⟨LogShape.err_none_iff hshape, ?_, ?_, ?_⟩
  · intro msg hmsg
    rcases hshape with ⟨h1, _⟩ | ⟨_, pre, ev, em, _, h2, h3, h4⟩
    · rw [h1] at hmsg; cases hmsg
    · exact ⟨pre, ev, em, h2, h3, h4⟩
  · intro l hl
    exact Launch_calls_prefix env path l hl
  · intro l pre args em hl hlog
    have hp := Launch_calls_prefix env path l hl
    rw [hlog, calls_append] at hp
    have hp1 : calls pre ++ [args] <+: calls (Launch (allOk l) path).log := by
      simpa [calls] using hp
    refine ⟨hp1, ?_⟩
    have := hp1.length_le
    simp only [List.length_append, List.length_singleton] at this
    omega

/-- C9 (behaviour of the code): when chdir and new-session succeed and
reading the directory fails, `Launch` returns the error of `os.ReadDir`
itself: its text is the underlying text, with no prefix naming the step. -/
theorem Launch_readDir_error_unwrapped (env : Env) (path msg : String)
    (hc : env.chdir path = none)
    (hs : env.run [] ["new-session", "-d", "-s", SessionName path, "-c", path, "-n", "root"]
      = none)
    (hr : env.readDir path = Except.error msg) :
    (Launch env path).err = some msg ∧
      (Launch env path).log =
        [⟨Step.chdir path, none⟩,
         ⟨Step.tmux ["new-session", "-d", "-s", SessionName path, "-c", path, "-n", "root"],
           none⟩,
         ⟨Step.readDir path, some msg⟩] := by
  simp [Launch, hc, hs, hr, newSessionArgs]

theorem Launch_readDir_error_unwrapped_witness :
    (Launch readDirFails "/home/u/proj").err = some "open /home/u/proj: permission denied" ∧
      (Launch readDirFails "/home/u/proj").log =
        [⟨Step.chdir "/home/u/proj", none⟩,
         ⟨Step.tmux ["new-session", "-d", "-s", SessionName "/home/u/proj", "-c",
            "/home/u/proj", "-n", "root"], none⟩,
         ⟨Step.readDir "/home/u/proj", some "open /home/u/proj: permission denied"⟩] :=
  Launch_readDir_error_unwrapped readDirFails "/home/u/proj"
    "open /home/u/proj: permission denied" rfl rfl (by decide)

/-! ## Claim on `SessionExists` -/

/-- C5: `SessionExists` returns false if and only if the probe ended with an
exit error whose exit code is exactly 1; it returns true when the probe
succeeds, for every other exit code, and for every other kind of failure. -/
theorem SessionExists_false_iff (run : List String → Option RunError) (sessionName : String) :
    ((SessionExists run sessionName).1 = false ↔
      ∃ text, run ["has-session", "-t", sessionName] = some (RunError.exit 1 text)) ∧
    (run ["has-session", "-t", sessionName] = none →
      (SessionExists run sessionName).1 = true) ∧
    (∀ code text, code ≠ 1 →
      run ["has-session", "-t", sessionName] = some (RunError.exit code text) →
      (SessionExists run sessionName).1 = true) ∧
    (∀ text, run ["has-session", "-t", sessionName] = some (RunError.other text) →
      (SessionExists run sessionName).1 = true) := by
  have hargs : hasSessionArgs sessionName = ["has-session", "-t", sessionName] := rfl
  unfold SessionExists
  rw [hargs]
  cases h : run ["has-session", "-t", sessionName] with
  | none => simp
  | some err =>
    cases err with
    | exit code text =>
      by_cases hc : code = 1
      · subst hc
        simp only [if_true, true_and, RunError.exit.injEq, exists_eq', true_iff, false_implies,
          reduceCtorEq, Option.some.injEq, and_imp, implies_true, and_true, Bool.false_eq_true]
        intro c _ hc1 hc2 _
        exact hc1 hc2.symm
      · simp [hc]
    | other text => simp

/-! ## Claim on `SessionName` -/

theorem dropWhile_replicate_append (p : Char → Bool) (a : Char) (k : Nat) (l : List Char)
    (ha : p a = true) : (List.replicate k a ++ l).dropWhile p = l.dropWhile p := by
  induction k with
  | zero => rfl
  | succ k ih => simp [List.replicate_succ, ha, ih]

theorem stripTrailingSeparators_append (q : List Char) (k : Nat) (hq : q ≠ [])
    (hlast : ∀ c ∈ q.getLast?, isPathSeparator c = false) :
    stripTrailingSeparators (q ++ List.replicate k '/') = q := by
  unfold stripTrailingSeparators
  rw [List.reverse_append, List.reverse_replicate,
    dropWhile_replicate_append _ _ _ _ (by decide)]
  cases hr : q.reverse with
  | nil => exact absurd (List.reverse_eq_nil_iff.mp hr) hq
  | cons x xs =>
    have hx : isPathSeparator x = false := by
      apply hlast
      rw [← List.head?_reverse, hr]
      rfl
    rw [List.dropWhile_cons_of_neg (by simp [hx]), ← hr, List.reverse_reverse]

theorem lastElement_append (pre s : List Char)
    (hs : ∀ c ∈ s, isPathSeparator c = false)
    (hpre : pre = [] ∨ ∃ d, pre = d ++ ['/']) :
    lastElement (pre ++ s) = s := by
  unfold lastElement
  rw [List.reverse_append]
  have hall : ∀ c ∈ s.reverse, (fun c => !isPathSeparator c) c = true := by
    intro c hc
    simp [hs c (List.mem_reverse.mp hc)]
  rw [List.takeWhile_append_of_pos hall]
  rcases hpre with rfl | ⟨d, rfl⟩
  · simp
  · simp [isPathSeparator]

theorem baseChars_component (pre s : List Char) (k : Nat) (hne : s ≠ [])
    (hs : ∀ c ∈ s, isPathSeparator c = false)
    (hpre : pre = [] ∨ ∃ d, pre = d ++ ['/']) :
    baseChars (pre ++ s ++ List.replicate k '/') = s := by
  unfold baseChars
  have h1 : pre ++ s ++ List.replicate k '/' ≠ [] := by simp [hne]
  have hq : pre ++ s ≠ [] := by simp [hne]
  have hlast : ∀ c ∈ (pre ++ s).getLast?, isPathSeparator c = false := by
    intro c hc
    rw [List.getLast?_append_of_ne_nil _ hne] at hc
    exact hs c (List.mem_of_getLast?_eq_some hc)
  rw [if_neg h1]
  simp only [stripTrailingSeparators_append _ k hq hlast, lastElement_append pre s hs hpre,
    if_neg hne]

theorem baseChars_separators (k : Nat) : baseChars (List.replicate (k + 1) '/') = ['/'] := by
  unfold baseChars
  have h1 : List.replicate (k + 1) '/' ≠ [] := by simp
  have h2 : stripTrailingSeparators (List.replicate (k + 1) '/') = [] := by
    unfold stripTrailingSeparators
    rw [List.reverse_replicate]
    have := dropWhile_replicate_append isPathSeparator '/' (k + 1) [] (by decide)
    simp only [List.append_nil, List.dropWhile_nil] at this
    rw [this]
    rfl
  rw [if_neg h1]
  simp only [h2]
  rfl

/-- C2, at a concrete input: `SessionName "/a/b/c/"` is `c`, not the empty
string: `filepath.Base` strips trailing separators, so a trailing separator
does not change the result. -/
theorem SessionName_trailing_separator_counterexample :
    SessionName "/a/b/c/" = "c" ∧ SessionName "/a/b/c/" ≠ "" ∧
      SessionName "/a/b/c/" = SessionName "/a/b/c" := by
  decide

/-- C2 (amended): `SessionName(p)` is `filepath.Base(p)`, a plain string
operation: with `s` a non-empty name without `/` and any number `k` of
trailing separators, it is `s` for `d/s` followed by `k` separators and for
`s` followed by `k` separators; it is `/` for a path of separators only and
`.` for the empty path. -/
theorem SessionName_component (d s : String) (k : Nat) (hne : s ≠ "")
    (hs : ∀ c ∈ s.data, c ≠ '/') :
    SessionName (d ++ "/" ++ s ++ String.mk (List.replicate k '/')) = s ∧
      SessionName (s ++ String.mk (List.replicate k '/')) = s ∧
      SessionName (String.mk (List.replicate (k + 1) '/')) = "/" ∧
      SessionName "" = "." := by
  have hne1 : s.data ≠ [] := by
    intro h
    apply hne
    exact String.ext h
  have hs1 : ∀ c ∈ s.data, isPathSeparator c = false := by
    intro c hc
    simpa [isPathSeparator] using hs c hc
  refine ⟨?_, ?_, ?_, rfl⟩
  · have h := baseChars_component (d.data ++ ['/']) s.data k hne1 hs1 (Or.inr ⟨_, rfl⟩)
    show String.mk (baseChars (d.data ++ ['/'] ++ s.data ++ List.replicate k '/')) = s
    rw [h]
  · have h := baseChars_component [] s.data k hne1 hs1 (Or.inl rfl)
    show String.mk (baseChars (s.data ++ List.replicate k '/')) = s
    rw [List.nil_append] at h
    rw [h]
  · show String.mk (baseChars (List.replicate (k + 1) '/')) = "/"
    rw [baseChars_separators]

theorem SessionName_component_witness :
    SessionName ("/a/b" ++ "/" ++ "c" ++ String.mk (List.replicate 2 '/')) = "c" ∧
      SessionName ("c" ++ String.mk (List.replicate 2 '/')) = "c" ∧
      SessionName (String.mk (List.replicate (2 + 1) '/')) = "/" ∧
      SessionName "" = "." :=
  SessionName_component "/a/b" "c" 2 (by decide) (by decide)

/-! ## Claim on `ListSessions` -/

theorem splitChars_ne_nil (sep : Char) (cs : List Char) : splitChars sep cs ≠ [] := by
  cases cs with
  | nil => simp [splitChars]
  | cons c cs =>
    unfold splitChars
    split
    · simp
    · split <;> simp

theorem splitChars_no_sep (sep : Char) (cs : List Char) :
    ∀ x ∈ splitChars sep cs, sep ∉ x := by
  induction cs with
  | nil => intro x hx; simp [splitChars] at hx; simp [hx]
  | cons c cs ih =>
    intro x hx
    unfold splitChars at hx
    split at hx
    · rcases List.mem_cons.mp hx with rfl | hx
      · simp
      · exact ih x hx
    · rename_i hc
      split at hx
      · simp only [List.mem_singleton] at hx
        subst hx
        simpa using Ne.symm hc
      · rename_i h t heq
        rcases List.mem_cons.mp hx with rfl | hx
        · have hh := ih h (by rw [heq]; exact List.mem_cons_self _ _)
          simp only [List.mem_cons, not_or]
          exact ⟨Ne.symm hc, hh⟩
        · exact ih x (by rw [heq]; exact List.mem_cons_of_mem _ hx)

theorem stringsJoin_cons_char (c : Char) (h : List Char) (t : List String) (sep : String) :
    stringsJoin (String.mk (c :: h) :: t) sep =
      String.mk [c] ++ stringsJoin (String.mk h :: t) sep := by
  cases t with
  | nil => rfl
  | cons x t =>
    simp only [stringsJoin]
    apply String.ext
    simp

theorem stringsJoin_splitChars (sep : Char) (cs : List Char) :
    stringsJoin ((splitChars sep cs).map String.mk) (String.mk [sep]) = String.mk cs := by
  induction cs with
  | nil => rfl
  | cons c cs ih =>
    unfold splitChars
    split
    · rename_i hc
      subst hc
      cases hsp : splitChars c cs with
      | nil => exact absurd hsp (splitChars_ne_nil _ _)
      | cons h t =>
        rw [hsp] at ih
        simp only [List.map_cons, stringsJoin] at ih ⊢
        rw [ih]
        apply String.ext
        simp
    · cases hsp : splitChars sep cs with
      | nil => exact absurd hsp (splitChars_ne_nil _ _)
      | cons h t =>
        rw [hsp] at ih
        simp only [List.map_cons] at ih ⊢
        rw [stringsJoin_cons_char, ih]
        apply String.ext
        simp

theorem head_dropWhile_false (p : Char → Bool) (l : List Char) :
    ∀ c ∈ (l.dropWhile p).head?, p c = false := by
  induction l with
  | nil => intro c hc; simp at hc
  | cons x l ih =>
    intro c hc
    by_cases hx : p x = true
    · rw [List.dropWhile_cons_of_pos hx] at hc
      exact ih c hc
    · rw [List.dropWhile_cons_of_neg hx] at hc
      simp only [List.head?_cons, Option.mem_def, Option.some.injEq] at hc
      subst hc
      simpa using hx

theorem trimRight_decomp (t : List Char) :
    t = trimRight t ++ (t.reverse.takeWhile IsSpace).reverse := by
  unfold trimRight
  rw [← List.reverse_append, List.takeWhile_append_dropWhile, List.reverse_reverse]

theorem trim_decomp (s : List Char) :
    ∃ pre post, s = pre ++ trimRight (trimLeft s) ++ post ∧
      (∀ c ∈ pre, IsSpace c = true) ∧ (∀ c ∈ post, IsSpace c = true) := by
  refine ⟨s.takeWhile IsSpace, ((trimLeft s).reverse.takeWhile IsSpace).reverse, ?_, ?_, ?_⟩
  · rw [List.append_assoc, ← trimRight_decomp]
    unfold trimLeft
    rw [List.takeWhile_append_dropWhile]
  · intro c hc
    exact List.mem_takeWhile_imp hc
  · intro c hc
    exact List.mem_takeWhile_imp (List.mem_reverse.mp hc)

theorem trim_ends (s : List Char) :
    (∀ c ∈ (trimRight (trimLeft s)).head?, IsSpace c = false) ∧
      (∀ c ∈ (trimRight (trimLeft s)).getLast?, IsSpace c = false) := by
  constructor
  · intro c hc
    have hd := trimRight_decomp (trimLeft s)
    have hne : trimRight (trimLeft s) ≠ [] := by
      intro h
      rw [h] at hc
      simp at hc
    have h1 : (trimLeft s).head? = (trimRight (trimLeft s)).head? := by
      conv_lhs => rw [hd]
      exact List.head?_append_of_ne_nil _ hne
    rw [← h1] at hc
    exact head_dropWhile_false IsSpace s c hc
  · intro c hc
    unfold trimRight at hc
    rw [List.getLast?_reverse] at hc
    exact head_dropWhile_false IsSpace _ c hc

/-- C8: when the `tmux list-sessions -F #S` run succeeds with standard
output `s`, `ListSessions` returns, with a nil error, the split on newlines of
the white-space-trimmed `s`.  The result is never empty, none of its elements
contains a newline, joining them with newlines gives back the trimmed
output, the trimmed output is `s` without a leading and a trailing run of
white space, and on empty or white-space-only output the result is `[""]`. -/
theorem ListSessions_ok (run : List String → ProcResult)
    (hrun : (run ["list-sessions", "-F", "#S"]).err = none) :
    ∃ sessions, ListSessions run = Except.ok sessions ∧
      sessions = Split (TrimSpace (run ["list-sessions", "-F", "#S"]).stdout) '\n' ∧
      sessions ≠ [] ∧
      (∀ x ∈ sessions, '\n' ∉ x.data) ∧
      stringsJoin sessions "\n" = TrimSpace (run ["list-sessions", "-F", "#S"]).stdout ∧
      (∃ pre post,
        (run ["list-sessions", "-F", "#S"]).stdout.data =
          pre ++ (TrimSpace (run ["list-sessions", "-F", "#S"]).stdout).data ++ post ∧
        (∀ c ∈ pre, IsSpace c = true) ∧ (∀ c ∈ post, IsSpace c = true)) ∧
      (∀ c ∈ (TrimSpace (run ["list-sessions", "-F", "#S"]).stdout).data.head?,
        IsSpace c = false) ∧
      (∀ c ∈ (TrimSpace (run ["list-sessions", "-F", "#S"]).stdout).data.getLast?,
        IsSpace c = false) ∧
      ((∀ c ∈ (run ["list-sessions", "-F", "#S"]).stdout.data, IsSpace c = true) →
        sessions = [""]) := by
  have hrun1 : (run listSessionsArgs).err = none := hrun
  refine ⟨Split (TrimSpace (run ["list-sessions", "-F", "#S"]).stdout) '\n', ?_, rfl, ?_, ?_,
    ?_, ?_, ?_, ?_, ?_⟩
  · simp only [ListSessions, hrun1]
    rfl
  · simp [Split, splitChars_ne_nil]
  · intro x hx
    simp only [Split, List.mem_map] at hx
    obtain ⟨y, hy, rfl⟩ := hx
    exact splitChars_no_sep _ _ y hy
  · exact stringsJoin_splitChars '\n' _
  · exact trim_decomp _
  · exact (trim_ends _).1
  · exact (trim_ends _).2
  · intro hall
    have h1 : trimLeft (run ["list-sessions", "-F", "#S"]).stdout.data = [] :=
      List.dropWhile_eq_nil_iff.mpr hall
    simp only [Split, TrimSpace, h1]
    rfl

theorem ListSessions_ok_witness :
    ListSessions (fun _ => ⟨none, "foo\nbar\n", ""⟩) = Except.ok ["foo", "bar"] := by
  obtain ⟨sessions, h1, h2, _⟩ :=
    ListSessions_ok (fun _ => ⟨none, "foo\nbar\n", ""⟩) rfl
  rw [h1, h2]
  decide

end Qail
